import Mathlib

/-!
# Verification of the weighted-random load balancer

Shallow embedding of the Go program `load_balancer.go` (functions
`getPodIPs`, `weightedChoice`, `loadBalance`) and proofs about it.

Modelling conventions:
* Go `float64` weights are modelled by an arbitrary linear ordered field
  (instantiated at `ℚ` for executable checks and at `ℝ` for the
  measure-theoretic distribution law).  All arithmetic performed by the
  program (summation, one multiplication, comparisons) is exact on the
  sample points used in the theorems.
* `rand.Float64()` is modelled by an explicit parameter `rand01`; the
  program computes `r := rand01 * total` exactly as the source does.
* Go runtime panics (slice index out of range) are modelled by
  `Except.error`; normal returns by `Except.ok`.
* The HTTP world of `loadBalance` is modelled by an oracle
  `net : String → FetchResult` giving, for each URL, the outcome of
  `http.Get` + `io.ReadAll`.  `http.Error(w, msg, code)` writes `msg`
  followed by a newline with the given status; `w.Write(body)` writes
  `body` with the implicit status 200.  The gateway result also records
  the list of outbound URLs actually requested.
-/

/-- Outcome of one run of the `for i, choice := range choices` loop of
`weightedChoice`: the loop either `return`s a choice, finishes normally
(falling through to the trailing fallback), or panics indexing
`weights[i]` past the end of `weights`. -/
inductive LoopOut where
  | found (c : String)
  | finished
  | panicked
  deriving DecidableEq, Repr

/-- The selection loop of `weightedChoice`, verbatim from the source:
walk `choices` with running sum `upto`, testing `upto + weights[i] >= r`;
consume `weights` positionally (`weights[i]`), panicking if `weights` is
exhausted before `choices`. -/
def wcLoop {α : Type} [LinearOrderedField α] (r : α) :
    List String → List α → α → LoopOut
  | [], _, _ => .finished
  | _ :: _, [], _ => .panicked
  | c :: cs, w :: ws, upto =>
    if upto + w ≥ r then .found c else wcLoop r cs ws (upto + w)

/-- Go `weightedChoice(choices, weights)`: sums the weights, draws
`r = rand01 * total`, runs the loop, and falls back to
`choices[len(choices)-1]` (a panic when `choices` is empty). -/
def weightedChoice {α : Type} [LinearOrderedField α]
    (choices : List String) (weights : List α) (rand01 : α) :
    Except String String :=
  let total := weights.sum
  let r := rand01 * total
  match wcLoop r choices weights 0 with
  | .found c => .ok c
  | .panicked => .error "runtime error: index out of range"
  | .finished =>
    match choices.getLast? with
    | some c => .ok c
    | none => .error "runtime error: index out of range"

/-- Go `strings.Split` with a one-rune separator, on the character list of
the input: split around every occurrence of `sep`; the empty input yields
`[""]` (one empty field), exactly as in Go. -/
def splitOnChar (sep : Char) : List Char → List String
  | [] => [""]
  | c :: cs =>
    if c = sep then "" :: splitOnChar sep cs
    else
      match splitOnChar sep cs with
      | [] => [String.mk [c]]
      | s :: rest => String.mk (c :: s.data) :: rest

/-- Go `getPodIPs()`: `strings.Split(os.Getenv("POD_IPS"), ",")`, with the
environment value passed explicitly.  In particular an unset or empty
`POD_IPS` yields the one-element list `[""]`. -/
def getPodIPs (podIPsEnv : String) : List String :=
  splitOnChar ',' podIPsEnv.data

/-- Outcome of the outbound `http.Get` + `io.ReadAll` against one URL:
connection error (`http.Get` returns `err != nil`), read error
(`io.ReadAll` fails after a successful connection), or a full response. -/
inductive FetchResult where
  | connFail
  | readFail (status : Nat)
  | ok (status : Nat) (body : String)
  deriving DecidableEq, Repr

/-- The HTTP response the gateway writes back to the caller. -/
structure GatewayResponse where
  status : Nat
  body : String
  deriving DecidableEq, Repr

/-- Go `http.Error(w, msg, code)`: status `code`, body `msg` plus a
trailing newline. -/
def httpError (msg : String) (code : Nat) : GatewayResponse :=
  { status := code, body := msg ++ "\n" }

/-- The weight constant hardcoded in `loadBalance`:
`weights := []float64{0.5, 0.3, 0.2}`. -/
def gatewayWeights {α : Type} [LinearOrderedField α] : List α :=
  [1 / 2, 3 / 10, 1 / 5]

/-- Go `loadBalance`: select a pod with `weightedChoice(getPodIPs(), weights)`,
`http.Get("http://<pod>")`, on error write `"Failed to reach pod"` (500),
else read the body, on error write `"Failed to read response"` (500), else
`w.Write(body)` (status 200, backend status discarded).  Returns the
response written together with the list of outbound URLs requested;
`Except.error` models a runtime panic. -/
def loadBalance {α : Type} [LinearOrderedField α]
    (podIPsEnv : String) (rand01 : α) (net : String → FetchResult) :
    Except String (GatewayResponse × List String) :=
  let podIPs := getPodIPs podIPsEnv
  match weightedChoice podIPs (gatewayWeights (α := α)) rand01 with
  | .error e => .error e
  | .ok selectedPod =>
    let url := "http://" ++ selectedPod
    match net url with
    | .connFail => .ok (httpError "Failed to reach pod" 500, [url])
    | .readFail _ => .ok (httpError "Failed to read response" 500, [url])
    | .ok _ body => .ok ({ status := 200, body := body }, [url])

/-! ## Characterization of the selection loop -/

/-- Index-level specification of the selection loop: the position (if any)
of the first weight for which the running sum satisfies
`upto + weights[i] >= r`, walking exactly as `weightedChoice` does. -/
def firstHit {α : Type} [LinearOrderedField α] (r : α) :
    List α → α → Option Nat
  | [], _ => none
  | w :: ws, u =>
    if u + w ≥ r then some 0 else (firstHit r ws (u + w)).map Nat.succ

/-- Cumulative weight of the first `k` backends (the value of `upto` when
the loop reaches index `k`). -/
def cumWeight {α : Type} [LinearOrderedField α] (ws : List α) (k : Nat) : α :=
  (ws.take k).sum

-- sanity checks of the embedding on concrete inputs
example : getPodIPs "" = [""] := by decide
example : getPodIPs "10.0.0.1,10.0.0.2" = ["10.0.0.1", "10.0.0.2"] := by decide
example : weightedChoice ["a", "b"] [(1 : ℚ), 1] (1 / 2) = .ok "a" := by
  norm_num [weightedChoice, wcLoop]
example : weightedChoice ["a", "b"] [(1 : ℚ), 1] (3 / 5) = .ok "b" := by
  norm_num [weightedChoice, wcLoop]
example : weightedChoice ([] : List String) ([] : List ℚ) 0 =
    .error "runtime error: index out of range" := by rfl
example : weightedChoice ["a"] ([] : List ℚ) 0 =
    .error "runtime error: index out of range" := by rfl
example : weightedChoice ["a"] [(0 : ℚ)] 0 = .ok "a" := by
  norm_num [weightedChoice, wcLoop]
example : weightedChoice ["a", "b"] [(0 : ℚ), 1] 0 = .ok "a" := by
  norm_num [weightedChoice, wcLoop]


theorem cumWeight_zero {α : Type} [LinearOrderedField α] (ws : List α) :
    cumWeight ws 0 = 0 := rfl

theorem cumWeight_succ_of_lt {α : Type} [LinearOrderedField α]
    (ws : List α) (i : Nat) (h : i < ws.length) :
    cumWeight ws (i + 1) = cumWeight ws i + ws.getD i 0 := by
  unfold cumWeight
  rw [List.sum_take_succ ws i h, List.getD_eq_getElem ws 0 h]

theorem cumWeight_length {α : Type} [LinearOrderedField α] (ws : List α) :
    cumWeight ws ws.length = ws.sum := by
  unfold cumWeight
  rw [List.take_length]

theorem cumWeight_nonneg {α : Type} [LinearOrderedField α]
    (ws : List α) (hnn : ∀ w ∈ ws, 0 ≤ w) (k : Nat) :
    0 ≤ cumWeight ws k :=
  List.sum_nonneg fun w hw => hnn w (List.take_subset k ws hw)

theorem cumWeight_mono {α : Type} [LinearOrderedField α]
    (ws : List α) (hnn : ∀ w ∈ ws, 0 ≤ w) {i j : Nat} (hij : i ≤ j) :
    cumWeight ws i ≤ cumWeight ws j := by
  have htt : ws.take i = (ws.take j).take i := by
    rw [List.take_take, Nat.min_eq_left hij]
  calc cumWeight ws i = ((ws.take j).take i).sum := by rw [cumWeight, htt]
    _ ≤ ((ws.take j).take i).sum + ((ws.take j).drop i).sum := by
        refine le_add_of_nonneg_right (List.sum_nonneg fun w hw => ?_)
        exact hnn w (List.take_subset j ws (List.drop_subset i (ws.take j) hw))
    _ = cumWeight ws j := by
        rw [cumWeight, ← List.sum_append, List.take_append_drop]

theorem cumWeight_le_sum {α : Type} [LinearOrderedField α]
    (ws : List α) (hnn : ∀ w ∈ ws, 0 ≤ w) (k : Nat) :
    cumWeight ws k ≤ ws.sum := by
  rcases Nat.le_total k ws.length with h | h
  · rw [← cumWeight_length ws]
    exact cumWeight_mono ws hnn h
  · rw [cumWeight, List.take_of_length_le h]

/-- The loop of `weightedChoice` agrees with its index-level
specification when the two lists have the same length. -/
theorem wcLoop_eq_firstHit {α : Type} [LinearOrderedField α] (r : α) :
    ∀ (cs : List String) (ws : List α) (u : α), cs.length = ws.length →
      wcLoop r cs ws u =
        (match firstHit r ws u with
          | some i => LoopOut.found (cs.getD i "")
          | none => LoopOut.finished)
  | [], [], u, _ => rfl
  | c :: cs, w :: ws, u, hlen => by
    have hlen' : cs.length = ws.length := by
      simpa using hlen
    by_cases h : u + w ≥ r
    · simp [wcLoop, firstHit, h]
    · have ih := wcLoop_eq_firstHit r cs ws (u + w) hlen'
      simp only [wcLoop, firstHit, h, if_false, if_neg h, ih]
      cases firstHit r ws (u + w) with
      | none => simp
      | some i => simp [List.getD_cons_succ]

/-- `firstHit` finds `some i` exactly when `i` is in range, the cumulative
sum through entry `i` reaches `r`, and no earlier prefix does. -/
theorem firstHit_eq_some_iff {α : Type} [LinearOrderedField α] (r : α) :
    ∀ (ws : List α) (u : α) (i : Nat),
      firstHit r ws u = some i ↔
        i < ws.length ∧ r ≤ u + cumWeight ws (i + 1) ∧
          ∀ k < i, u + cumWeight ws (k + 1) < r
  | [], u, i => by simp [firstHit]
  | w :: ws, u, i => by
    by_cases h : u + w ≥ r
    · simp only [firstHit, if_pos h]
      constructor
      · rintro hsome
        have hi : i = 0 := by
          cases hsome; rfl
        subst hi
        refine ⟨by simp, ?_, by omega⟩
        simpa [cumWeight, List.take_succ_cons, add_comm] using h
      · rintro ⟨hi, hle, hlt⟩
        rcases i with _ | j
        · rfl
        · exfalso
          have h0 := hlt 0 (Nat.succ_pos j)
          rw [cumWeight, List.take_succ_cons, List.take_zero] at h0
          simp only [List.sum_cons, List.sum_nil, add_zero] at h0
          exact absurd h (not_le.mpr h0)
    · simp only [firstHit, if_neg h]
      push_neg at h
      constructor
      · rintro hsome
        rcases Option.map_eq_some'.mp hsome with ⟨j, hj, rfl⟩
        rcases (firstHit_eq_some_iff r ws (u + w) j).mp hj with ⟨hjlen, hjle, hjlt⟩
        refine ⟨by simpa using Nat.succ_lt_succ hjlen, ?_, ?_⟩
        · rw [cumWeight, List.take_succ_cons, List.sum_cons, ← add_assoc]
          exact hjle
        · intro k hk
          rcases k with _ | m
          · rw [cumWeight, List.take_succ_cons, List.take_zero]
            simpa using h
          · rw [cumWeight, List.take_succ_cons, List.sum_cons, ← add_assoc]
            exact hjlt m (by omega)
      · rintro ⟨hi, hle, hlt⟩
        rcases i with _ | j
        · exfalso
          rw [cumWeight, List.take_succ_cons, List.take_zero] at hle
          simp only [List.sum_cons, List.sum_nil, add_zero] at hle
          exact absurd hle (not_le.mpr h)
        · have hj : firstHit r ws (u + w) = some j := by
            refine (firstHit_eq_some_iff r ws (u + w) j).mpr
              ⟨by simpa using hi, ?_, ?_⟩
            · rw [cumWeight, List.take_succ_cons, List.sum_cons,
                ← add_assoc] at hle
              exact hle
            · intro m hm
              have := hlt (m + 1) (by omega)
              rw [cumWeight, List.take_succ_cons, List.sum_cons,
                ← add_assoc] at this
              exact this
          rw [hj]
          rfl

/-- `weightedChoice` on equal-length lists, rephrased through `firstHit`:
a hit returns that backend, otherwise the trailing fallback returns the
last backend (or panics on an empty `choices`). -/
theorem weightedChoice_eq_match {α : Type} [LinearOrderedField α]
    (cs : List String) (ws : List α) (r01 : α)
    (hlen : cs.length = ws.length) :
    weightedChoice cs ws r01 =
      (match firstHit (r01 * ws.sum) ws 0 with
        | some i => Except.ok (cs.getD i "")
        | none =>
          match cs.getLast? with
          | some c => Except.ok c
          | none => Except.error "runtime error: index out of range") := by
  simp only [weightedChoice]
  rw [wcLoop_eq_firstHit (r01 * ws.sum) cs ws 0 hlen]
  cases firstHit (r01 * ws.sum) ws 0 <;> rfl

/-- `firstHit` finds nothing exactly when every prefix sum stays below
`r`. -/
theorem firstHit_eq_none_iff {α : Type} [LinearOrderedField α] (r : α) :
    ∀ (ws : List α) (u : α),
      firstHit r ws u = none ↔
        ∀ i < ws.length, u + cumWeight ws (i + 1) < r
  | [], u => by simp [firstHit]
  | w :: ws, u => by
    by_cases h : u + w ≥ r
    · simp only [firstHit, if_pos h]
      constructor
      · intro hcon
        exact absurd hcon (by simp)
      · intro hall
        exfalso
        have h0 := hall 0 (by simp)
        rw [cumWeight, List.take_succ_cons, List.take_zero] at h0
        simp only [List.sum_cons, List.sum_nil, add_zero] at h0
        exact absurd h (not_le.mpr h0)
    · simp only [firstHit, if_neg h, Option.map_eq_none']
      push_neg at h
      rw [firstHit_eq_none_iff r ws (u + w)]
      constructor
      · intro hall i hi
        rcases i with _ | m
        · rw [cumWeight, List.take_succ_cons, List.take_zero]
          simpa using h
        · rw [cumWeight, List.take_succ_cons, List.sum_cons, ← add_assoc]
          exact hall m (by simpa using hi)
      · intro hall i hi
        have := hall (i + 1) (by simpa using Nat.succ_lt_succ hi)
        rw [cumWeight, List.take_succ_cons, List.sum_cons, ← add_assoc] at this
        exact this

/-! ## Claims about the selector -/

/-- C1: the claim says that on an empty backend set, or a set whose
weights sum to a total `<= 0`, `weightedChoice` deterministically returns
"no backend available" without raising any fault, and the gateway then
synthesizes a failure with no outbound call.  The code has no such guard:
on the empty set the fallback `choices[len(choices)-1]` panics (index out
of range), and on a non-empty set with total `0` the draw is `r = 0` and
the very first backend satisfies `upto + weight >= r`, so it is returned
and the gateway proceeds to an outbound call.  This theorem evaluates the
code at both failing inputs. -/
theorem c1_no_empty_or_zero_total_guard :
    weightedChoice ([] : List String) ([] : List ℚ) 0 =
      .error "runtime error: index out of range" ∧
    ([(0 : ℚ)].sum ≤ 0 ∧ weightedChoice ["a"] [(0 : ℚ)] 0 = .ok "a") :=
  ⟨by rfl, by norm_num, by norm_num [weightedChoice, wcLoop]⟩

/-- C3: the claim says that when the address count and the weight count
diverge, selection does not crash or index out of range.  The code indexes
`weights[i]` positionally while ranging over `choices`, so with one
address and zero weights it panics (index out of range) on the first
iteration.  This theorem evaluates the code at that failing input. -/
theorem c3_count_mismatch_panics :
    ["a"].length ≠ ([] : List ℚ).length ∧
    weightedChoice ["a"] ([] : List ℚ) 0 =
      .error "runtime error: index out of range" :=
  ⟨by decide, by rfl⟩

/-- C2 (counterexample): with backends `["a", "b"]`, weights `[0, 1]`
(total `1 > 0`) and draw `r = 0 * total = 0 ∈ [0, total)`, the
zero-weight backend `"a"` *is* returned, because the first check
`upto + weight >= r` is `0 + 0 >= 0`, which holds.  This refutes the
claim that a zero-weight backend is never returned for any draw in
`[0, total)`. -/
theorem c2_zero_weight_selected_at_zero_draw :
    (0 : ℚ) < ([0, 1] : List ℚ).sum ∧
    weightedChoice ["a", "b"] ([0, 1] : List ℚ) 0 = .ok "a" :=
  ⟨by norm_num, by norm_num [weightedChoice, wcLoop]⟩

/-- C2 (amended): for a backend set with non-negative weights and total
weight `> 0`, and any *strictly positive* draw (`0 < rand01 < 1`, so
`r = rand01 * total ∈ (0, total)`), the backend returned by
`weightedChoice` always has strictly positive weight; only the boundary
draw `r = 0` can select a zero-weight backend. -/
theorem c2_zero_weight_never_selected_pos_draw
    (cs : List String) (ws : List ℚ) (r01 : ℚ)
    (hlen : cs.length = ws.length) (hnn : ∀ w ∈ ws, 0 ≤ w)
    (h0 : 0 < r01) (h1 : r01 < 1) (hT : 0 < ws.sum) :
    ∃ i, i < cs.length ∧
      weightedChoice cs ws r01 = .ok (cs.getD i "") ∧ 0 < ws.getD i 0 := by
  set r := r01 * ws.sum with hr
  have hr0 : 0 < r := mul_pos h0 hT
  have hrT : r < ws.sum := by
    calc r = r01 * ws.sum := hr
      _ < 1 * ws.sum := by exact mul_lt_mul_of_pos_right h1 hT
      _ = ws.sum := one_mul _
  have hlenpos : 0 < ws.length := by
    rcases ws with _ | ⟨w, ws⟩
    · simp at hT
    · simp
  have hsome : firstHit r ws 0 ≠ none := by
    intro hnone
    have := (firstHit_eq_none_iff r ws 0).mp hnone (ws.length - 1)
      (by omega)
    rw [Nat.sub_add_cancel hlenpos, zero_add, cumWeight_length] at this
    exact absurd hrT (not_lt.mpr this.le)
  rcases Option.ne_none_iff_exists'.mp hsome with ⟨i, hi⟩
  rcases (firstHit_eq_some_iff r ws 0 i).mp hi with ⟨hilen, hile, hilt⟩
  rw [zero_add] at hile
  refine ⟨i, by omega, ?_, ?_⟩
  · rw [weightedChoice_eq_match cs ws r01 hlen, ← hr, hi]
  · have hmem : ws.getD i 0 ∈ ws := by
      rw [List.getD_eq_getElem ws 0 hilen]
      exact List.getElem_mem hilen
    rcases lt_or_eq_of_le (hnn _ hmem) with h | h
    · exact h
    · exfalso
      have hcum : cumWeight ws (i + 1) = cumWeight ws i := by
        rw [cumWeight_succ_of_lt ws i hilen, ← h, add_zero]
      rcases i with _ | j
      · rw [hcum, cumWeight_zero] at hile
        exact absurd hile (not_le.mpr hr0)
      · have := hilt j (Nat.lt_succ_self j)
        rw [zero_add] at this
        rw [hcum] at hile
        exact absurd hile (not_le.mpr this)

theorem c2_zero_weight_never_selected_pos_draw_witness :
    ∃ i, i < (["a", "b"] : List String).length ∧
      weightedChoice ["a", "b"] ([0, 1] : List ℚ) (1 / 2) =
        .ok ((["a", "b"] : List String).getD i "") ∧
      0 < ([0, 1] : List ℚ).getD i 0 :=
  c2_zero_weight_never_selected_pos_draw ["a", "b"] [0, 1] (1 / 2)
    (by decide)
    (by
      intro w hw
      simp only [List.mem_cons, List.not_mem_nil, or_false] at hw
      rcases hw with rfl | rfl <;> norm_num)
    (by norm_num) (by norm_num) (by norm_num)

/-- C4: on a backend set with equal-length address and weight lists,
`weightedChoice` returns the first backend (in stored order) whose
cumulative sum satisfies `upto + weight >= r` with `r = rand01 * total`
(`cumWeight ws (i+1)` is exactly `upto + weights[i]` at index `i`); in
particular, with weights `[1, 1]` (total `2`), the draw `rand01 = 1/2`
(so `r = 1.0` exactly) selects the first backend, and `rand01 = 3/5`
(so `r = 1.2`, just above `1.0`) selects the second. -/
theorem c4_first_match_and_boundary :
    (∀ (cs : List String) (ws : List ℚ) (r01 : ℚ) (i : Nat),
      cs.length = ws.length → i < ws.length →
      r01 * ws.sum ≤ cumWeight ws (i + 1) →
      (∀ k < i, cumWeight ws (k + 1) < r01 * ws.sum) →
      weightedChoice cs ws r01 = .ok (cs.getD i "")) ∧
    weightedChoice ["a", "b"] [(1 : ℚ), 1] (1 / 2) = .ok "a" ∧
    weightedChoice ["a", "b"] [(1 : ℚ), 1] (3 / 5) = .ok "b" := by
  refine ⟨?_, by norm_num [weightedChoice, wcLoop],
    by norm_num [weightedChoice, wcLoop]⟩
  intro cs ws r01 i hlen hi hhit hmiss
  have hsome : firstHit (r01 * ws.sum) ws 0 = some i := by
    refine (firstHit_eq_some_iff (r01 * ws.sum) ws 0 i).mpr ⟨hi, ?_, ?_⟩
    · rw [zero_add]; exact hhit
    · intro k hk; rw [zero_add]; exact hmiss k hk
  rw [weightedChoice_eq_match cs ws r01 hlen, hsome]

theorem c4_first_match_witness :
    weightedChoice ["x", "y", "z"] ([2, 3, 5] : List ℚ) (1 / 2) = .ok "y" :=
  c4_first_match_and_boundary.1 ["x", "y", "z"] [2, 3, 5] (1 / 2) 1
    (by decide) (by decide)
    (by norm_num [cumWeight])
    (by
      intro k hk
      have hk0 : k = 0 := by omega
      subst hk0
      norm_num [cumWeight])

/-- C5: on a non-empty backend set with equal-length lists and total
weight `> 0`, `weightedChoice` always returns (`Except.ok`) a backend
that belongs to the set, for any weight values; and whenever the
accumulating walk exhausts the set without a match (every prefix sum
stays strictly below the draw `r = rand01 * total`), the last-listed
backend is returned as the fallback.  The draw never fails. -/
theorem c5_totality_and_last_fallback
    (cs : List String) (ws : List ℚ) (r01 : ℚ)
    (hne : cs ≠ []) (hlen : cs.length = ws.length) (hT : 0 < ws.sum) :
    (∃ c, c ∈ cs ∧ weightedChoice cs ws r01 = .ok c) ∧
    ((∀ i < ws.length, cumWeight ws (i + 1) < r01 * ws.sum) →
      weightedChoice cs ws r01 = .ok (cs.getLast hne)) := by
  rw [weightedChoice_eq_match cs ws r01 hlen]
  cases hfh : firstHit (r01 * ws.sum) ws 0 with
  | none =>
    rw [List.getLast?_eq_getLast cs hne]
    exact ⟨⟨cs.getLast hne, List.getLast_mem hne, rfl⟩, fun _ => rfl⟩
  | some i =>
    have hi : i < cs.length := by
      rw [hlen]
      exact ((firstHit_eq_some_iff _ ws 0 i).mp hfh).1
    constructor
    · refine ⟨cs.getD i "", ?_, rfl⟩
      rw [List.getD_eq_getElem cs "" hi]
      exact List.getElem_mem hi
    · intro hall
      exfalso
      have : firstHit (r01 * ws.sum) ws 0 = none := by
        refine (firstHit_eq_none_iff _ ws 0).mpr fun j hj => ?_
        rw [zero_add]
        exact hall j hj
      rw [this] at hfh
      exact Option.noConfusion hfh

theorem c5_totality_witness :
    (∃ c, c ∈ ["a", "b"] ∧
      weightedChoice ["a", "b"] ([1, 1] : List ℚ) (9 / 10) = .ok c) ∧
    ((∀ i < ([1, 1] : List ℚ).length,
        cumWeight ([1, 1] : List ℚ) (i + 1) < (9 / 10) * ([1, 1] : List ℚ).sum) →
      weightedChoice ["a", "b"] ([1, 1] : List ℚ) (9 / 10) =
        .ok ((["a", "b"] : List String).getLast (by decide))) :=
  c5_totality_and_last_fallback ["a", "b"] [1, 1] (9 / 10)
    (by decide) (by decide) (by norm_num)

/-! ## The distribution law (C6) -/

theorem volume_eq_of_between_Ioo_Ioc {a b : ℝ} (S : Set ℝ)
    (h1 : Set.Ioo a b ⊆ S) (h2 : S ⊆ Set.Ioc a b) :
    MeasureTheory.volume S = ENNReal.ofReal (b - a) := by
  apply le_antisymm
  · calc MeasureTheory.volume S ≤ MeasureTheory.volume (Set.Ioc a b) :=
      MeasureTheory.measure_mono h2
    _ = ENNReal.ofReal (b - a) := Real.volume_Ioc
  · calc ENNReal.ofReal (b - a) = MeasureTheory.volume (Set.Ioo a b) :=
      Real.volume_Ioo.symm
    _ ≤ MeasureTheory.volume S := MeasureTheory.measure_mono h1

theorem volume_eq_of_between_Ico_Icc {a b : ℝ} (S : Set ℝ)
    (h1 : Set.Ico a b ⊆ S) (h2 : S ⊆ Set.Icc a b) :
    MeasureTheory.volume S = ENNReal.ofReal (b - a) := by
  apply le_antisymm
  · calc MeasureTheory.volume S ≤ MeasureTheory.volume (Set.Icc a b) :=
      MeasureTheory.measure_mono h2
    _ = ENNReal.ofReal (b - a) := Real.volume_Icc
  · calc ENNReal.ofReal (b - a) = MeasureTheory.volume (Set.Ico a b) :=
      Real.volume_Ico.symm
    _ ≤ MeasureTheory.volume S := MeasureTheory.measure_mono h1

/-- With distinct addresses, the loop lands on backend `i` exactly when
`firstHit` does. -/
theorem wcLoop_found_iff_firstHit {α : Type} [LinearOrderedField α] (r : α)
    (cs : List String) (ws : List α) (hlen : cs.length = ws.length)
    (hnd : cs.Nodup) (i : Nat) (hi : i < cs.length) :
    wcLoop r cs ws 0 = LoopOut.found (cs.getD i "") ↔
      firstHit r ws 0 = some i := by
  rw [wcLoop_eq_firstHit r cs ws 0 hlen]
  cases hfh : firstHit r ws 0 with
  | none => simp
  | some j =>
    have hj : j < cs.length := by
      rw [hlen]
      exact ((firstHit_eq_some_iff r ws 0 j).mp hfh).1
    simp only [LoopOut.found.injEq, Option.some.injEq]
    rw [List.getD_eq_getElem cs "" hj, List.getD_eq_getElem cs "" hi]
    exact ⟨fun h => hnd.getElem_inj_iff.mp h, fun h => by subst h; rfl⟩

/-- C6: the distribution law.  For a backend set with distinct addresses,
equal-length lists and non-negative weights, the set of draw values
`r ∈ [0, total)` on which the selection loop picks backend `i` has
Lebesgue measure exactly `weights[i]` — i.e. backend `i` is selected with
probability `weights[i] / total` under the uniform draw, so empirical
selection frequencies converge to `weight / total`. -/
theorem c6_selection_set_measure
    (cs : List String) (ws : List ℝ) (i : Nat)
    (hlen : cs.length = ws.length) (hnd : cs.Nodup)
    (hnn : ∀ w ∈ ws, 0 ≤ w) (hi : i < cs.length) :
    MeasureTheory.volume
      {r : ℝ | r ∈ Set.Ico (0 : ℝ) ws.sum ∧
        wcLoop r cs ws 0 = LoopOut.found (cs.getD i "")} =
      ENNReal.ofReal (ws.getD i 0) := by
  have hiw : i < ws.length := hlen ▸ hi
  have hset : {r : ℝ | r ∈ Set.Ico (0 : ℝ) ws.sum ∧
      wcLoop r cs ws 0 = LoopOut.found (cs.getD i "")} =
      {r : ℝ | (0 ≤ r ∧ r < ws.sum) ∧ r ≤ cumWeight ws (i + 1) ∧
        ∀ k < i, cumWeight ws (k + 1) < r} := by
    ext r
    simp only [Set.mem_setOf_eq, Set.mem_Ico]
    constructor
    · rintro ⟨hr, hfound⟩
      have hfh := (wcLoop_found_iff_firstHit r cs ws hlen hnd i hi).mp hfound
      rcases (firstHit_eq_some_iff r ws 0 i).mp hfh with ⟨_, hle, hlt⟩
      exact ⟨hr, by simpa using hle, fun k hk => by simpa using hlt k hk⟩
    · rintro ⟨hr, hle, hlt⟩
      refine ⟨hr, (wcLoop_found_iff_firstHit r cs ws hlen hnd i hi).mpr ?_⟩
      exact (firstHit_eq_some_iff r ws 0 i).mpr
        ⟨hiw, by simpa using hle, fun k hk => by simpa using hlt k hk⟩
  rw [hset]
  have hcum1T : cumWeight ws (i + 1) ≤ ws.sum := cumWeight_le_sum ws hnn (i + 1)
  rcases i with _ | j
  · have hd : cumWeight ws 1 = ws.getD 0 0 := by
      rw [cumWeight_succ_of_lt ws 0 hiw, cumWeight_zero, zero_add]
    have := volume_eq_of_between_Ico_Icc (a := 0) (b := cumWeight ws 1)
      {r : ℝ | (0 ≤ r ∧ r < ws.sum) ∧ r ≤ cumWeight ws 1 ∧
        ∀ k < 0, cumWeight ws (k + 1) < r}
      (fun r hr => ⟨⟨hr.1, lt_of_lt_of_le hr.2 hcum1T⟩, le_of_lt hr.2,
        fun k hk => absurd hk (Nat.not_lt_zero k)⟩)
      (fun r hr => ⟨hr.1.1, hr.2.1⟩)
    rw [this, sub_zero, hd]
  · have ha0 : 0 ≤ cumWeight ws (j + 1) := cumWeight_nonneg ws hnn (j + 1)
    have hab : cumWeight ws (j + 1 + 1) = cumWeight ws (j + 1) + ws.getD (j + 1) 0 :=
      cumWeight_succ_of_lt ws (j + 1) hiw
    have := volume_eq_of_between_Ioo_Ioc
      (a := cumWeight ws (j + 1)) (b := cumWeight ws (j + 1 + 1))
      {r : ℝ | (0 ≤ r ∧ r < ws.sum) ∧ r ≤ cumWeight ws (j + 1 + 1) ∧
        ∀ k < j + 1, cumWeight ws (k + 1) < r}
      (fun r hr => ⟨⟨le_of_lt (lt_of_le_of_lt ha0 hr.1),
        lt_of_lt_of_le hr.2 hcum1T⟩, le_of_lt hr.2, fun k hk =>
          lt_of_le_of_lt (cumWeight_mono ws hnn (by omega)) hr.1⟩)
      (fun r hr => ⟨hr.2.2 j (Nat.lt_succ_self j), hr.2.1⟩)
    rw [this, hab, add_sub_cancel_left]

theorem c6_selection_set_measure_witness :
    MeasureTheory.volume
      {r : ℝ | r ∈ Set.Ico (0 : ℝ) ([1, 2] : List ℝ).sum ∧
        wcLoop r ["a", "b"] ([1, 2] : List ℝ) 0 =
          LoopOut.found ((["a", "b"] : List String).getD 1 "")} =
      ENNReal.ofReal (([1, 2] : List ℝ).getD 1 0) :=
  c6_selection_set_measure ["a", "b"] [1, 2] 1 (by decide) (by decide)
    (by
      intro w hw
      simp only [List.mem_cons, List.not_mem_nil, or_false] at hw
      rcases hw with rfl | rfl <;> norm_num)
    (by decide)

/-! ## Claims about the gateway -/

/-- C7: whenever the outbound connection to the chosen backend fails
(`http.Get` returns an error), `loadBalance` answers the caller with the
synthesized 500 response `"Failed to reach pod"` and the only outbound
request attempted is the single one to that backend — no retry against
another backend; moreover every inbound request issues at most one
outbound request. -/
theorem c7_connection_failure_single_shot :
    (∀ (env : String) (r01 : ℚ) (net : String → FetchResult) (pod : String),
      weightedChoice (getPodIPs env) (gatewayWeights (α := ℚ)) r01 = .ok pod →
      net ("http://" ++ pod) = .connFail →
      loadBalance env r01 net =
        .ok ({ status := 500, body := "Failed to reach pod\n" },
          ["http://" ++ pod])) ∧
    (∀ (env : String) (r01 : ℚ) (net : String → FetchResult)
        (resp : GatewayResponse) (calls : List String),
      loadBalance env r01 net = .ok (resp, calls) → calls.length ≤ 1) := by
  constructor
  · intro env r01 net pod hsel hnet
    simp only [loadBalance, hsel, hnet]
    rfl
  · intro env r01 net resp calls h
    simp only [loadBalance] at h
    split at h
    · exact absurd h (by simp)
    · split at h <;>
        · simp only [Except.ok.injEq, Prod.mk.injEq] at h
          rcases h with ⟨-, hcalls⟩
          subst hcalls
          simp

theorem c7_connection_failure_witness :
    loadBalance "10.0.0.1" (0 : ℚ) (fun _ => .connFail) =
      .ok ({ status := 500, body := "Failed to reach pod\n" },
        ["http://" ++ "10.0.0.1"]) := by
  have hip : getPodIPs "10.0.0.1" = ["10.0.0.1"] := by decide
  exact c7_connection_failure_single_shot.1 "10.0.0.1" 0 (fun _ => .connFail)
    "10.0.0.1"
    (by rw [hip]; norm_num [weightedChoice, wcLoop, gatewayWeights])
    rfl

/-- C8: when the connection succeeds but reading the response body fails,
`loadBalance` answers with the synthesized 500 response
`"Failed to read response"`, which differs (in its body) from the
connection-failure response, so the two failure modes are distinguishable
by the caller. -/
theorem c8_read_failure_distinct_response :
    (∀ (env : String) (r01 : ℚ) (net : String → FetchResult)
        (pod : String) (st : Nat),
      weightedChoice (getPodIPs env) (gatewayWeights (α := ℚ)) r01 = .ok pod →
      net ("http://" ++ pod) = .readFail st →
      loadBalance env r01 net =
        .ok ({ status := 500, body := "Failed to read response\n" },
          ["http://" ++ pod])) ∧
    ({ status := 500, body := "Failed to read response\n" } : GatewayResponse) ≠
      { status := 500, body := "Failed to reach pod\n" } := by
  constructor
  · intro env r01 net pod st hsel hnet
    simp only [loadBalance, hsel, hnet]
    rfl
  · decide

theorem c8_read_failure_witness :
    loadBalance "10.0.0.1" (0 : ℚ) (fun _ => .readFail 200) =
      .ok ({ status := 500, body := "Failed to read response\n" },
        ["http://" ++ "10.0.0.1"]) := by
  have hip : getPodIPs "10.0.0.1" = ["10.0.0.1"] := by decide
  exact c8_read_failure_distinct_response.1 "10.0.0.1" 0 (fun _ => .readFail 200)
    "10.0.0.1" 200
    (by rw [hip]; norm_num [weightedChoice, wcLoop, gatewayWeights])
    rfl

/-- C9: when the chosen backend is reachable and returns status 200 with
body `"OK"`, `loadBalance` relays exactly that body and that status to the
caller (`w.Write` answers with the implicit status 200). -/
theorem c9_forward_success_relays_body :
    ∀ (env : String) (r01 : ℚ) (net : String → FetchResult) (pod : String),
      weightedChoice (getPodIPs env) (gatewayWeights (α := ℚ)) r01 = .ok pod →
      net ("http://" ++ pod) = .ok 200 "OK" →
      loadBalance env r01 net =
        .ok ({ status := 200, body := "OK" }, ["http://" ++ pod]) := by
  intro env r01 net pod hsel hnet
  simp only [loadBalance, hsel, hnet]

theorem c9_forward_success_witness :
    loadBalance "10.0.0.1" (0 : ℚ) (fun _ => .ok 200 "OK") =
      .ok ({ status := 200, body := "OK" }, ["http://" ++ "10.0.0.1"]) := by
  have hip : getPodIPs "10.0.0.1" = ["10.0.0.1"] := by decide
  exact c9_forward_success_relays_body "10.0.0.1" 0 (fun _ => .ok 200 "OK")
    "10.0.0.1"
    (by rw [hip]; norm_num [weightedChoice, wcLoop, gatewayWeights])
    rfl

/-- C10: with `POD_IPS` unset or empty, `getPodIPs` returns the
one-element list `[""]`, so the selector never sees an empty set: for
every draw it selects the empty-string address, and the gateway then
attempts exactly one outbound call to `"http://"` — which surfaces as the
connection-failure response, not as a "no backend available" report
without an outbound attempt. -/
theorem c10_empty_env_selects_empty_address :
    getPodIPs "" = [""] ∧
    (∀ r01 : ℚ, weightedChoice [""] (gatewayWeights (α := ℚ)) r01 = .ok "") ∧
    (∀ (r01 : ℚ) (net : String → FetchResult),
      net "http://" = .connFail →
      loadBalance "" r01 net =
        .ok ({ status := 500, body := "Failed to reach pod\n" },
          ["http://"])) := by
  have hwc : ∀ r01 : ℚ,
      weightedChoice [""] (gatewayWeights (α := ℚ)) r01 = .ok "" := by
    intro r01
    simp only [weightedChoice, gatewayWeights, wcLoop]
    rcases le_or_lt (r01 * ([1 / 2, 3 / 10, 1 / 5] : List ℚ).sum)
      (0 + 1 / 2) with h | h
    · simp only [if_pos h]
    · simp only [if_neg (not_le.mpr h)]
      rfl
  refine ⟨by decide, hwc, ?_⟩
  intro r01 net hnet
  have hip : getPodIPs "" = [""] := by decide
  have happ : ("http://" : String) ++ "" = "http://" := by decide
  simp only [loadBalance, hip, hwc r01, happ, hnet]
  rfl

theorem c10_empty_env_witness :
    loadBalance "" (0 : ℚ) (fun _ => .connFail) =
      .ok ({ status := 500, body := "Failed to reach pod\n" }, ["http://"]) :=
  c10_empty_env_selects_empty_address.2.2 0 (fun _ => .connFail) rfl
